import Mathlib

/-!
Shallow embedding of the NoiseTorch LADSPA adapter (src/c/ladspa/module.c).

Audio samples are modelled as rationals.  The two ring buffers hold their
float contents at one-float (4-byte) granularity, since every push and pop
performed by module.c is a whole number of floats; byte counts are exposed
through `ringbuf_bytes_used`.  The rnnoise engine is an external
collaborator (out of scope per the spec) and is modelled as a parameter: an
engine-state type `σ` together with a step function
`proc : σ → Frame → σ × Frame × ℚ` returning the advanced engine state, the
denoised frame and the voice-activity probability, standing for
`rnnoise_process_frame`.
-/

/-- An audio sample (a C float, modelled exactly). -/
abbrev Sample : Type := ℚ

/-- A frame: in module.c a block of FRAMESIZE_NSAMPLES floats. -/
abbrev Frame : Type := List Sample

/-- FRAMESIZE_NSAMPLES, module.c line 21. -/
def FRAMESIZE_NSAMPLES : Nat := 480

/-- FRAMESIZE_BYTES, module.c line 22: 480 floats of 4 bytes each. -/
def FRAMESIZE_BYTES : Nat := FRAMESIZE_NSAMPLES * 4

/-- VAD_GRACE_PERIOD, module.c line 24. -/
def VAD_GRACE_PERIOD : Int := 20

/-- Modelled from the spec: RingBuffer `used()` of spec section 4.1
(c-ringbuf's `ringbuf_bytes_used`, whose source is not in src/); the buffer
content is a FIFO of floats, 4 bytes per sample. -/
def ringbuf_bytes_used (b : List Sample) : Nat := 4 * b.length

/-- Modelled from the spec: RingBuffer `push` of spec section 4.1
(c-ringbuf's `ringbuf_memcpy_into`): appends the data at the write end.
The capacity precondition (never push beyond free space) is caller-enforced
per the spec and holds in all uses proved below. -/
def ringbuf_memcpy_into (b : List Sample) (src : List Sample) : List Sample :=
  b ++ src

/-- Modelled from the spec: RingBuffer `pop` of spec section 4.1
(c-ringbuf's `ringbuf_memcpy_from`): removes `nbytes` bytes from the read
end, returning (data copied out, remaining buffer contents). -/
def ringbuf_memcpy_from (b : List Sample) (nbytes : Nat) : List Sample × List Sample :=
  (b.take (nbytes / 4), b.drop (nbytes / 4))

/-- rnnoiseFilter, module.c lines 26-38.  The unused `init` field (set to 0
at line 51 and never read) is omitted; the three port pointers
(m_pfVAD, m_pfInput, m_pfOutput) are modelled as explicit arguments of
`runFilter`, matching `connectPortToSimpleFilter`'s role of merely storing
host-owned locations. -/
structure rnnoiseFilter (σ : Type) where
  st : σ
  in_buf : List Sample
  out_buf : List Sample
  remaining_grace_period : Int
deriving DecidableEq

/-- instantiateSimpleFilter, module.c lines 40-57.  `mallocOk` models the
outcome of the instance `malloc` at line 46; when it fails, the null handle
(`none`) is returned (the `if (psFilter)` guard).  Modelled from the spec:
the collaborators `ringbuf_new` (spec section 4.1, construction) and
`rnnoise_create` (spec section 6) are not in src/ and their specified
interfaces expose no failure mode, so a successful malloc yields a fully
constructed instance: both ring buffers empty, the grace counter at
VAD_GRACE_PERIOD (line 52), and the engine state `initEngine` that
`rnnoise_create` returns (line 53). -/
def instantiateSimpleFilter (σ : Type) (initEngine : σ) (mallocOk : Bool) :
    Option (rnnoiseFilter σ) :=
  if mallocOk then
    some { st := initEngine, in_buf := [], out_buf := [],
           remaining_grace_period := VAD_GRACE_PERIOD }
  else none

/-- The VAD counter transition at module.c lines 114-116: a probability
above the threshold resets the grace counter to VAD_GRACE_PERIOD. -/
def vadTransition (vad_prob vad_thresh : ℚ) (grace : Int) : Int :=
  if vad_prob > vad_thresh then VAD_GRACE_PERIOD else grace

/-- One iteration of the per-frame loop, module.c lines 110-126: run the
engine on the frame (line 112), apply the VAD transition (lines 114-116),
then either decrement the counter and keep the denoised frame, or zero the
frame (lines 118-124).  Returns (engine state, grace counter, the frame
pushed into the output ring buffer at line 125). -/
def frameStep {σ : Type} (proc : σ → Frame → σ × Frame × ℚ) (vad_thresh : ℚ)
    (st : σ) (grace : Int) (fr : Frame) : σ × Int × Frame :=
  if 0 ≤ vadTransition (proc st fr).2.2 vad_thresh grace then
    ((proc st fr).1, vadTransition (proc st fr).2.2 vad_thresh grace - 1,
     (proc st fr).2.1)
  else
    ((proc st fr).1, vadTransition (proc st fr).2.2 vad_thresh grace,
     List.replicate FRAMESIZE_NSAMPLES 0)

/-- The whole loop at module.c lines 110-126: threads the engine state and
the grace counter through the frames in order, collecting the per-frame
pushes into the output ring buffer. -/
def frameLoop {σ : Type} (proc : σ → Frame → σ × Frame × ℚ) (vad_thresh : ℚ) :
    σ → Int → List Frame → σ × Int × List Frame
  | st, grace, [] => (st, grace, [])
  | st, grace, fr :: rest =>
    let s1 := frameStep proc vad_thresh st grace fr
    let s2 := frameLoop proc vad_thresh s1.1 s1.2.1 rest
    (s2.1, s2.2.1, s1.2.2 :: s2.2.2)

/-- Splits the popped frame-aligned buffer `tmpin` into its `n` consecutive
frames (the `tmpin + i * FRAMESIZE_NSAMPLES` addressing of module.c
line 113). -/
def toFrames : List Sample → Nat → List Frame
  | _, 0 => []
  | l, n + 1 => l.take FRAMESIZE_NSAMPLES :: toFrames (l.drop FRAMESIZE_NSAMPLES) n

/-- module.c lines 104-126: push the (already scaled) input into the input
ring buffer (line 104), pop the whole frames that are now available
(lines 106-108, leaving any partial-frame remainder), process them through
the engine and the VAD gate, and push each resulting frame into the output
ring buffer (line 125). -/
def pushAndProcess {σ : Type} (proc : σ → Frame → σ × Frame × ℚ)
    (s : rnnoiseFilter σ) (vad_thresh : ℚ) (scaled : List Sample) :
    rnnoiseFilter σ :=
  let in1 := ringbuf_memcpy_into s.in_buf scaled
  let n_frames := ringbuf_bytes_used in1 / FRAMESIZE_BYTES
  let p := ringbuf_memcpy_from in1 (FRAMESIZE_BYTES * n_frames)
  let lr := frameLoop proc vad_thresh s.st s.remaining_grace_period
      (toFrames p.1 n_frames)
  { st := lr.1, in_buf := p.2,
    out_buf := ringbuf_memcpy_into s.out_buf lr.2.2.flatten,
    remaining_grace_period := lr.2.1 }

/-- module.c lines 128-139: compute `frames_avail`/`samples_avail`; on
underrun zero-fill the first `n_samples - samples_avail` output samples and
pop the `samples_avail` available ones behind them, otherwise pop exactly
`n_samples` samples.  Returns (raw host output before the final rescale,
remaining output ring buffer contents). -/
def drainOut (n_samples : Nat) (out_buf : List Sample) : List Sample × List Sample :=
  let frames_avail := ringbuf_bytes_used out_buf / FRAMESIZE_BYTES
  let samples_avail := frames_avail * FRAMESIZE_NSAMPLES
  if samples_avail < n_samples then
    (List.replicate (n_samples - samples_avail) 0 ++
       (ringbuf_memcpy_from out_buf (samples_avail * 4)).1,
     (ringbuf_memcpy_from out_buf (samples_avail * 4)).2)
  else
    ((ringbuf_memcpy_from out_buf (n_samples * 4)).1,
     (ringbuf_memcpy_from out_buf (n_samples * 4)).2)

/-- runFilter, module.c lines 84-144.  `input` is the contents of the
host-connected input buffer (`m_pfInput`, of length `n_samples`) and
`vad_control` the value read from the control port (`*m_pfVAD`).  Returns
the updated instance, the contents of the host output buffer after the
call, and the contents of the host input buffer after the call: the scaling
loop at lines 100-102 writes `in[i] * 32767` back into the host input
buffer in place. -/
def runFilter {σ : Type} (proc : σ → Frame → σ × Frame × ℚ)
    (s : rnnoiseFilter σ) (vad_control : ℚ) (input : List Sample) :
    rnnoiseFilter σ × List Sample × List Sample :=
  let scaled := input.map (fun x => x * 32767)
  let s1 := pushAndProcess proc s (vad_control / 100) scaled
  let d := drainOut input.length s1.out_buf
  ({ s1 with out_buf := d.2 },
   d.1.map (fun x => x / 32767),
   scaled)

/-- A sequence of `run` invocations on one instance (final state only). -/
def runSeq {σ : Type} (proc : σ → Frame → σ × Frame × ℚ) :
    rnnoiseFilter σ → List (ℚ × List Sample) → rnnoiseFilter σ
  | s, [] => s
  | s, (c, inp) :: rest => runSeq proc (runFilter proc s c inp).1 rest

/-- A sequence of `run` invocations on one instance, collecting the host
output buffer contents of each call in order. -/
def runSeqOut {σ : Type} (proc : σ → Frame → σ × Frame × ℚ) :
    rnnoiseFilter σ → List (ℚ × List Sample) → rnnoiseFilter σ × List (List Sample)
  | s, [] => (s, [])
  | s, (c, inp) :: rest =>
    let r := runFilter proc s c inp
    let k := runSeqOut proc r.1 rest
    (k.1, r.2.1 :: k.2)

/-- Two independent instances driven by an interleaved schedule: each entry
is (flag, vad control, input), flag `true` directing the call to the first
instance.  Returns the final pair of states and each instance's collected
outputs. -/
def runPair {σ1 σ2 : Type} (proc1 : σ1 → Frame → σ1 × Frame × ℚ)
    (proc2 : σ2 → Frame → σ2 × Frame × ℚ) :
    rnnoiseFilter σ1 → rnnoiseFilter σ2 → List (Bool × ℚ × List Sample) →
      (rnnoiseFilter σ1 × rnnoiseFilter σ2) × List (List Sample) × List (List Sample)
  | s1, s2, [] => ((s1, s2), [], [])
  | s1, s2, (tag, c, inp) :: rest =>
    if tag then
      let r := runFilter proc1 s1 c inp
      let k := runPair proc1 proc2 r.1 s2 rest
      (k.1, r.2.1 :: k.2.1, k.2.2)
    else
      let r := runFilter proc2 s2 c inp
      let k := runPair proc1 proc2 s1 r.1 rest
      (k.1, k.2.1, r.2.1 :: k.2.2)

/-- The engine state evolution alone: what `rnnoise_process_frame` does to
its DenoiseState over a frame list, with no reference to the VAD gate. -/
def engineFold {σ : Type} (proc : σ → Frame → σ × Frame × ℚ) :
    σ → List Frame → σ
  | st, [] => st
  | st, fr :: rest => engineFold proc (proc st fr).1 rest

/-- An engine model whose probability stream and denoised frames are given
by index: the engine state counts the frames seen so far.  Used to state
claims about prescribed probability sequences. -/
def procIdx (probs : Nat → ℚ) (den : Nat → Frame) :
    Nat → Frame → Nat × Frame × ℚ :=
  fun k _ => (k + 1, den k, probs k)

/-- A concrete engine model for witnesses: ignores its input, emits a zero
frame of the correct size with probability 0. -/
def procZ : Unit → Frame → Unit × Frame × ℚ :=
  fun _ _ => ((), List.replicate FRAMESIZE_NSAMPLES 0, 0)

/-- A freshly instantiated filter (what `instantiateSimpleFilter` returns
on allocation success), with engine state `()`. -/
def inst0 : rnnoiseFilter Unit :=
  { st := (), in_buf := [], out_buf := [],
    remaining_grace_period := VAD_GRACE_PERIOD }

/-- Eight consecutive calls of 120 zero samples each at VAD control 50. -/
def callsC6 : List (ℚ × List Sample) :=
  List.replicate 8 (50, List.replicate 120 0)

/-! ## Helper lemmas -/

/-- Every frame the loop body emits (pass-through or muted) has exactly
FRAMESIZE_NSAMPLES samples, provided the engine fills its output frame
completely (in C, `tmp` is a fixed float[FRAMESIZE_NSAMPLES] array). -/
theorem frameStep_emit_length {σ : Type} (proc : σ → Frame → σ × Frame × ℚ)
    (hproc : ∀ st fr, ((proc st fr).2.1).length = FRAMESIZE_NSAMPLES)
    (t : ℚ) (st : σ) (g : Int) (fr : Frame) :
    ((frameStep proc t st g fr).2.2).length = FRAMESIZE_NSAMPLES := by
  unfold frameStep
  split
  · exact hproc st fr
  · exact List.length_replicate _ _

/-- The loop pushes exactly one full frame per processed frame. -/
theorem frameLoop_flatten_length {σ : Type} (proc : σ → Frame → σ × Frame × ℚ)
    (hproc : ∀ st fr, ((proc st fr).2.1).length = FRAMESIZE_NSAMPLES)
    (t : ℚ) (l : List Frame) :
    ∀ (st : σ) (g : Int),
      ((frameLoop proc t st g l).2.2).flatten.length = l.length * FRAMESIZE_NSAMPLES := by
  induction l with
  | nil => intro st g; rfl
  | cons fr rest ih =>
    intro st g
    simp only [frameLoop, List.flatten_cons, List.length_append, List.length_cons]
    rw [ih, frameStep_emit_length proc hproc]
    ring

/-- The loop emits one frame per input frame. -/
theorem frameLoop_out_count {σ : Type} (proc : σ → Frame → σ × Frame × ℚ)
    (t : ℚ) (l : List Frame) :
    ∀ (st : σ) (g : Int), ((frameLoop proc t st g l).2.2).length = l.length := by
  induction l with
  | nil => intro st g; rfl
  | cons fr rest ih =>
    intro st g
    simp only [frameLoop, List.length_cons]
    rw [ih]

/-- `toFrames l n` always produces `n` frames. -/
theorem toFrames_length (n : Nat) : ∀ l : List Sample, (toFrames l n).length = n := by
  induction n with
  | zero => intro l; rfl
  | succ m ih =>
    intro l
    simp only [toFrames, List.length_cons]
    rw [ih]

/-- When the buffer really holds `n` whole frames, every frame `toFrames`
produces has exactly FRAMESIZE_NSAMPLES samples: no partial frames. -/
theorem toFrames_full (n : Nat) :
    ∀ l : List Sample, FRAMESIZE_NSAMPLES * n ≤ l.length →
      ∀ fr ∈ toFrames l n, fr.length = FRAMESIZE_NSAMPLES := by
  induction n with
  | zero => intro l _ fr hfr; simp [toFrames] at hfr
  | succ m ih =>
    intro l hl fr hfr
    simp only [toFrames, List.mem_cons] at hfr
    rcases hfr with h | h
    · subst h
      simp only [List.length_take]
      have : FRAMESIZE_NSAMPLES ≤ l.length := by
        have := hl
        simp only [FRAMESIZE_NSAMPLES] at this ⊢
        omega
      omega
    · refine ih (l.drop FRAMESIZE_NSAMPLES) ?_ fr h
      simp only [List.length_drop]
      simp only [FRAMESIZE_NSAMPLES] at hl ⊢
      omega

/-- The engine state threaded by the loop is exactly the engine's own fold
over the frames: the VAD gate never touches it. -/
theorem frameLoop_engine {σ : Type} (proc : σ → Frame → σ × Frame × ℚ)
    (t : ℚ) (l : List Frame) :
    ∀ (st : σ) (g : Int), (frameLoop proc t st g l).1 = engineFold proc st l := by
  induction l with
  | nil => intro st g; rfl
  | cons fr rest ih =>
    intro st g
    simp only [frameLoop, engineFold]
    rw [ih]
    have : (frameStep proc t st g fr).1 = (proc st fr).1 := by
      unfold frameStep; split <;> rfl
    rw [this]

/-- The grace counter after one frame, in closed form: reset-and-decrement
on reopen, decrement only while nonnegative otherwise. -/
theorem frameStep_grace {σ : Type} (proc : σ → Frame → σ × Frame × ℚ)
    (t : ℚ) (st : σ) (g : Int) (fr : Frame) :
    (frameStep proc t st g fr).2.1 =
      if (proc st fr).2.2 > t then VAD_GRACE_PERIOD - 1
      else if 0 ≤ g then g - 1 else g := by
  unfold frameStep vadTransition
  by_cases h1 : (proc st fr).2.2 > t
  · simp only [if_pos h1]
    rw [if_pos (show (0:Int) ≤ VAD_GRACE_PERIOD by norm_num [VAD_GRACE_PERIOD])]
  · simp only [if_neg h1]
    by_cases h2 : (0:Int) ≤ g
    · simp only [if_pos h2]
    · simp only [if_neg h2]

/-- The engine state advanced by one loop iteration is the engine's own
step, untouched by the gate. -/
theorem frameStep_fst {σ : Type} (proc : σ → Frame → σ × Frame × ℚ)
    (t : ℚ) (st : σ) (g : Int) (fr : Frame) :
    (frameStep proc t st g fr).1 = (proc st fr).1 := by
  unfold frameStep; split <;> rfl

/-- The grace counter never drops below -1: the decrement branch fires only
when the counter is nonnegative. -/
theorem frameLoop_grace_lb {σ : Type} (proc : σ → Frame → σ × Frame × ℚ)
    (t : ℚ) (l : List Frame) :
    ∀ (st : σ) (g : Int), -1 ≤ g → -1 ≤ (frameLoop proc t st g l).2.1 := by
  induction l with
  | nil => intro st g hg; exact hg
  | cons fr rest ih =>
    intro st g hg
    simp only [frameLoop]
    refine ih _ _ ?_
    rw [frameStep_grace]
    split
    · norm_num [VAD_GRACE_PERIOD]
    · split <;> omega

/-- The emitted frame of one loop iteration, in closed form: the denoised
frame passes iff the probability reopened the gate or the counter was still
nonnegative. -/
theorem frameStep_emit {σ : Type} (proc : σ → Frame → σ × Frame × ℚ)
    (t : ℚ) (st : σ) (g : Int) (fr : Frame) :
    (frameStep proc t st g fr).2.2 =
      if (proc st fr).2.2 > t ∨ 0 ≤ g then (proc st fr).2.1
      else List.replicate FRAMESIZE_NSAMPLES 0 := by
  unfold frameStep vadTransition
  by_cases h1 : (proc st fr).2.2 > t
  · simp only [if_pos h1, if_pos (Or.inl h1)]
    rw [if_pos (show (0:Int) ≤ VAD_GRACE_PERIOD by norm_num [VAD_GRACE_PERIOD])]
  · simp only [if_neg h1]
    by_cases h2 : (0:Int) ≤ g
    · simp only [if_pos h2, if_pos (Or.inr h2)]
    · rw [if_neg h2, if_neg (by tauto)]

/-- A run of frames whose probabilities all stay at or below the threshold:
the gate passes exactly the frames reached while the counter is still
nonnegative, i.e. the first g+1 of them. -/
theorem frameLoop_allBelow (probs : Nat → ℚ) (den : Nat → Frame) (t : ℚ)
    (l : List Frame) :
    ∀ (k : Nat) (g : Int),
      (∀ i, i < l.length → ¬ probs (k + i) > t) →
      (frameLoop (procIdx probs den) t k g l).2.2
        = (List.range l.length).map
            (fun i : Nat => if (i : Int) ≤ g then den (k + i)
             else List.replicate FRAMESIZE_NSAMPLES 0) := by
  induction l with
  | nil => intro k g _; rfl
  | cons fr rest ih =>
    intro k g h
    have h0 : ¬ probs k > t := by simpa using h 0 (by simp)
    have hpr : procIdx probs den k fr = (k + 1, den k, probs k) := rfl
    simp only [frameLoop, List.length_cons]
    rw [List.range_succ_eq_map, List.map_cons, List.map_map]
    by_cases hg : (0:Int) ≤ g
    · have hemit : (frameStep (procIdx probs den) t k g fr).2.2 = den k := by
        rw [frameStep_emit, hpr, if_pos (Or.inr hg)]
      have hgr : (frameStep (procIdx probs den) t k g fr).2.1 = g - 1 := by
        rw [frameStep_grace, hpr]
        simp only [if_neg h0, if_pos hg]
      have hfst : (frameStep (procIdx probs den) t k g fr).1 = k + 1 := by
        rw [frameStep_fst, hpr]
      have ihr := ih (k + 1) (g - 1) (fun i hi => by
        have := h (i + 1) (by simp only [List.length_cons]; omega)
        have harith : k + (i + 1) = k + 1 + i := by omega
        rwa [harith] at this)
      rw [hemit, hgr, hfst, ihr]
      have hhead : (if ((0:Nat) : Int) ≤ g then den (k + 0)
          else List.replicate FRAMESIZE_NSAMPLES 0) = den k := by
        simp [hg]
      rw [hhead]
      refine congrArg (den k :: ·) (List.map_congr_left ?_)
      intro i _
      simp only [Function.comp_apply]
      have hiff : ((Nat.succ i : Nat) : Int) ≤ g ↔ (i : Int) ≤ g - 1 := by
        push_cast; omega
      have harith : k + Nat.succ i = k + 1 + i := by omega
      by_cases hc : (i : Int) ≤ g - 1
      · rw [if_pos (hiff.mpr hc), if_pos hc, harith]
      · rw [if_neg (fun hcc => hc (hiff.mp hcc)), if_neg hc]
    · have hemit : (frameStep (procIdx probs den) t k g fr).2.2
          = List.replicate FRAMESIZE_NSAMPLES 0 := by
        rw [frameStep_emit, hpr, if_neg (by tauto)]
      have hgr : (frameStep (procIdx probs den) t k g fr).2.1 = g := by
        rw [frameStep_grace, hpr]
        simp only [if_neg h0, if_neg hg]
      have hfst : (frameStep (procIdx probs den) t k g fr).1 = k + 1 := by
        rw [frameStep_fst, hpr]
      have ihr := ih (k + 1) g (fun i hi => by
        have := h (i + 1) (by simp only [List.length_cons]; omega)
        have harith : k + (i + 1) = k + 1 + i := by omega
        rwa [harith] at this)
      rw [hemit, hgr, hfst, ihr]
      have hhead : (if ((0:Nat) : Int) ≤ g then den (k + 0)
          else List.replicate FRAMESIZE_NSAMPLES 0)
          = List.replicate FRAMESIZE_NSAMPLES (0:ℚ) := by
        rw [if_neg (by exact_mod_cast hg)]
      rw [hhead]
      refine congrArg (_ :: ·) (List.map_congr_left ?_)
      intro i _
      simp only [Function.comp_apply]
      have h1 : ¬ ((Nat.succ i : Nat) : Int) ≤ g := by
        push_cast; omega
      have h2 : ¬ ((i : Nat) : Int) ≤ g := by
        push_cast at hg ⊢; omega
      rw [if_neg h1, if_neg h2]

/-- Occupancy of the input ring buffer after a call: the partial-frame
remainder of everything pushed so far. -/
theorem pushAndProcess_in_length {σ : Type} (proc : σ → Frame → σ × Frame × ℚ)
    (s : rnnoiseFilter σ) (t : ℚ) (scaled : List Sample) :
    (pushAndProcess proc s t scaled).in_buf.length
      = (s.in_buf.length + scaled.length) % FRAMESIZE_NSAMPLES := by
  simp only [pushAndProcess, ringbuf_memcpy_from, ringbuf_memcpy_into,
    ringbuf_bytes_used, List.length_drop, List.length_append]
  simp only [FRAMESIZE_BYTES, FRAMESIZE_NSAMPLES]
  omega

/-- Occupancy growth of the output ring buffer during processing: one whole
frame per completed input frame. -/
theorem pushAndProcess_out_length {σ : Type} (proc : σ → Frame → σ × Frame × ℚ)
    (hproc : ∀ st fr, ((proc st fr).2.1).length = FRAMESIZE_NSAMPLES)
    (s : rnnoiseFilter σ) (t : ℚ) (scaled : List Sample) :
    (pushAndProcess proc s t scaled).out_buf.length
      = s.out_buf.length
        + ((s.in_buf.length + scaled.length) / FRAMESIZE_NSAMPLES) * FRAMESIZE_NSAMPLES := by
  simp only [pushAndProcess, ringbuf_memcpy_from, ringbuf_memcpy_into,
    ringbuf_bytes_used, List.length_append]
  rw [frameLoop_flatten_length proc hproc, toFrames_length]
  simp only [List.length_append, FRAMESIZE_BYTES, FRAMESIZE_NSAMPLES]
  omega

/-- The state part of `runFilter`, decomposed into its two phases. -/
theorem runFilter_fst {σ : Type} (proc : σ → Frame → σ × Frame × ℚ)
    (s : rnnoiseFilter σ) (c : ℚ) (input : List Sample) :
    (runFilter proc s c input).1
      = { pushAndProcess proc s (c / 100) (input.map (fun x => x * 32767)) with
          out_buf := (drainOut input.length
            (pushAndProcess proc s (c / 100)
              (input.map (fun x => x * 32767))).out_buf).2 } := rfl

/-- One call preserves the backlog invariant: input remainder below one
frame, combined backlog below two frames. -/
theorem runFilter_backlog {σ : Type} (proc : σ → Frame → σ × Frame × ℚ)
    (hproc : ∀ st fr, ((proc st fr).2.1).length = FRAMESIZE_NSAMPLES)
    (s : rnnoiseFilter σ) (c : ℚ) (inp : List Sample)
    (h1 : s.in_buf.length < FRAMESIZE_NSAMPLES)
    (h2 : s.in_buf.length + s.out_buf.length < 2 * FRAMESIZE_NSAMPLES) :
    (runFilter proc s c inp).1.in_buf.length < FRAMESIZE_NSAMPLES ∧
    (runFilter proc s c inp).1.in_buf.length
        + (runFilter proc s c inp).1.out_buf.length < 2 * FRAMESIZE_NSAMPLES := by
  have hin : (runFilter proc s c inp).1.in_buf.length
      = (s.in_buf.length + inp.length) % FRAMESIZE_NSAMPLES := by
    have hb : (runFilter proc s c inp).1.in_buf
        = (pushAndProcess proc s (c / 100) (inp.map (fun x => x * 32767))).in_buf := rfl
    rw [hb, pushAndProcess_in_length, List.length_map]
  have hout1 : (pushAndProcess proc s (c / 100) (inp.map (fun x => x * 32767))).out_buf.length
      = s.out_buf.length + ((s.in_buf.length + inp.length) / 480) * 480 := by
    rw [pushAndProcess_out_length proc hproc, List.length_map]
    simp only [FRAMESIZE_NSAMPLES]
  have hob : (runFilter proc s c inp).1.out_buf
      = (drainOut inp.length
          (pushAndProcess proc s (c / 100) (inp.map (fun x => x * 32767))).out_buf).2 := rfl
  rw [hin, hob]
  simp only [FRAMESIZE_NSAMPLES] at h1 h2 ⊢
  simp only [drainOut, ringbuf_memcpy_from, ringbuf_bytes_used, FRAMESIZE_BYTES,
    FRAMESIZE_NSAMPLES]
  split
  · next hlt =>
    simp only [List.length_drop]
    rw [hout1] at hlt ⊢
    constructor <;> omega
  · next hge =>
    simp only [List.length_drop]
    rw [hout1] at hge ⊢
    constructor <;> omega

/-- The backlog invariant holds after any sequence of calls. -/
theorem runSeq_backlog {σ : Type} (proc : σ → Frame → σ × Frame × ℚ)
    (hproc : ∀ st fr, ((proc st fr).2.1).length = FRAMESIZE_NSAMPLES)
    (calls : List (ℚ × List Sample)) :
    ∀ s : rnnoiseFilter σ,
      s.in_buf.length < FRAMESIZE_NSAMPLES →
      s.in_buf.length + s.out_buf.length < 2 * FRAMESIZE_NSAMPLES →
      (runSeq proc s calls).in_buf.length < FRAMESIZE_NSAMPLES ∧
      (runSeq proc s calls).in_buf.length + (runSeq proc s calls).out_buf.length
        < 2 * FRAMESIZE_NSAMPLES := by
  induction calls with
  | nil => intro s hh1 hh2; exact ⟨hh1, hh2⟩
  | cons cp rest ih =>
    intro s hh1 hh2
    obtain ⟨c, inp⟩ := cp
    obtain ⟨g1, g2⟩ := runFilter_backlog proc hproc s c inp hh1 hh2
    exact ih _ g1 g2

/-! ## Claims -/

/-- C2, counterexample: the claim says the host-connected input buffer
holds the same values after `run` returns as before.  It does not: for the
single-sample input [1], after the call the host input buffer holds
[32767]. -/
theorem C2_localCopy_cex :
    (runFilter procZ inst0 50 [(1:ℚ)]).2.2 = [(32767:ℚ)] ∧ (32767:ℚ) ≠ 1 := by
  constructor
  · have h : (runFilter procZ inst0 50 [(1:ℚ)]).2.2 = [(1:ℚ) * 32767] := rfl
    rw [h]
    norm_num
  · norm_num

/-- C2 (amended): the per-callback scaling by 32767 is performed directly
in the host-connected input buffer, in place: after every `run`
invocation the host input buffer holds exactly the input values multiplied
by 32767 (so it is a mutation visible to the host whenever the host does
not reuse the same buffer as the output). -/
theorem C2_scaleInPlace {σ : Type} (proc : σ → Frame → σ × Frame × ℚ)
    (s : rnnoiseFilter σ) (c : ℚ) (input : List Sample) :
    (runFilter proc s c input).2.2 = input.map (fun x => x * 32767) := rfl

set_option maxRecDepth 10000 in
/-- C3, counterexample: the claim says every below-threshold frame
decrements grace_remaining, with no floor.  From a fresh instance
(counter VAD_GRACE_PERIOD = 20), 30 frames of probability 0 against
threshold 0 leave the counter at -1, not at 20 - 30 = -10: the decrement
is guarded by `remaining_grace_period >= 0`. -/
theorem C3_noFloor_cex :
    (frameLoop procZ 0 () VAD_GRACE_PERIOD (List.replicate 30 ([]:Frame))).2.1 = -1 ∧
    VAD_GRACE_PERIOD - 30 ≠ (-1 : Int) := by
  constructor
  · decide
  · decide

/-- C3 (amended): on a below-threshold frame the counter is decremented by
1 only when it is still nonnegative and is left unchanged otherwise, so
from any start at or above -1 it never drops below -1; it is raised above
its previous value only by the reopen branch (probability above
threshold). -/
theorem C3_graceFloor {σ : Type} (proc : σ → Frame → σ × Frame × ℚ)
    (t : ℚ) (st : σ) (g : Int) :
    (∀ fr, ¬ (proc st fr).2.2 > t →
        (frameStep proc t st g fr).2.1 = if 0 ≤ g then g - 1 else g) ∧
    (∀ fr, g < (frameStep proc t st g fr).2.1 → (proc st fr).2.2 > t) ∧
    (∀ l : List Frame, -1 ≤ g → -1 ≤ (frameLoop proc t st g l).2.1) := by
  refine ⟨?_, ?_, ?_⟩
  · intro fr hfr
    rw [frameStep_grace, if_neg hfr]
  · intro fr hfr
    by_contra hc
    rw [frameStep_grace, if_neg hc] at hfr
    split at hfr <;> omega
  · intro l hg
    exact frameLoop_grace_lb proc t l st g hg

/-- C3 witness: the amended theorem at a concrete input — from counter -1,
a below-threshold run leaves the counter at -1 or above. -/
theorem C3_graceFloor_w :
    -1 ≤ (frameLoop procZ 0 () (-1) [([]:Frame)]).2.1 :=
  (C3_graceFloor procZ 0 () (-1)).2.2 [[]] (by decide)

/-- C7: when the instance allocation fails, `instantiate` returns the null
handle; whenever it returns a non-null handle the instance is fully
constructed (both ring buffers valid and empty, grace counter initialized,
engine handle in place). -/
theorem C7_instantiateNullOrComplete (σ : Type) (e : σ) (mallocOk : Bool) :
    (mallocOk = false → instantiateSimpleFilter σ e mallocOk = none) ∧
    (∀ inst, instantiateSimpleFilter σ e mallocOk = some inst →
        inst.in_buf = [] ∧ inst.out_buf = [] ∧
        inst.remaining_grace_period = VAD_GRACE_PERIOD ∧ inst.st = e) := by
  constructor
  · intro h
    subst h
    rfl
  · intro inst h
    cases mallocOk with
    | false => exact absurd h (by simp [instantiateSimpleFilter])
    | true =>
      simp only [instantiateSimpleFilter, if_pos] at h
      cases h
      exact ⟨rfl, rfl, rfl, rfl⟩

/-- C7 witness: concrete allocation failure returns the null handle. -/
theorem C7_instantiateNullOrComplete_w :
    instantiateSimpleFilter Unit () false = none :=
  (C7_instantiateNullOrComplete Unit () false).1 rfl

/-- C8: two instances driven by one interleaved schedule of calls evolve
and produce exactly as if each instance's own calls were run alone —
`runFilter` reads and writes only the state of the instance it is called
on. -/
theorem C8_instanceIndependence {σ1 σ2 : Type} (proc1 : σ1 → Frame → σ1 × Frame × ℚ)
    (proc2 : σ2 → Frame → σ2 × Frame × ℚ)
    (s1 : rnnoiseFilter σ1) (s2 : rnnoiseFilter σ2)
    (sched : List (Bool × ℚ × List Sample)) :
    (runPair proc1 proc2 s1 s2 sched).1.1
        = (runSeqOut proc1 s1 ((sched.filter (fun x => x.1)).map (fun x => x.2))).1 ∧
    (runPair proc1 proc2 s1 s2 sched).2.1
        = (runSeqOut proc1 s1 ((sched.filter (fun x => x.1)).map (fun x => x.2))).2 ∧
    (runPair proc1 proc2 s1 s2 sched).1.2
        = (runSeqOut proc2 s2 ((sched.filter (fun x => !x.1)).map (fun x => x.2))).1 ∧
    (runPair proc1 proc2 s1 s2 sched).2.2
        = (runSeqOut proc2 s2 ((sched.filter (fun x => !x.1)).map (fun x => x.2))).2 := by
  induction sched generalizing s1 s2 with
  | nil => exact ⟨rfl, rfl, rfl, rfl⟩
  | cons e rest ih =>
    obtain ⟨tag, c, inp⟩ := e
    cases tag
    · obtain ⟨i1, i2, i3, i4⟩ := ih s1 (runFilter proc2 s2 c inp).1
      simp [runPair, runSeqOut, i1, i2, i3, i4]
    · obtain ⟨j1, j2, j3, j4⟩ := ih (runFilter proc1 s1 c inp).1 s2
      simp [runPair, runSeqOut, j1, j2, j3, j4]

/-- C10: per processed frame, exactly FRAMESIZE_BYTES bytes are pushed into
the output ring buffer whether the gate passes or mutes, and the engine
state advances by the engine's own fold over the frames, independent of
the threshold and of the grace counter. -/
theorem C10_gateIndependent {σ : Type} (proc : σ → Frame → σ × Frame × ℚ)
    (hproc : ∀ st fr, ((proc st fr).2.1).length = FRAMESIZE_NSAMPLES)
    (t : ℚ) (st : σ) (g : Int) (l : List Frame) (b : List Sample) :
    (frameLoop proc t st g l).1 = engineFold proc st l ∧
    (∀ o ∈ (frameLoop proc t st g l).2.2, ringbuf_bytes_used o = FRAMESIZE_BYTES) ∧
    ringbuf_bytes_used (ringbuf_memcpy_into b ((frameLoop proc t st g l).2.2).flatten)
      = ringbuf_bytes_used b + l.length * FRAMESIZE_BYTES := by
  refine ⟨frameLoop_engine proc t l st g, ?_, ?_⟩
  · intro o ho
    have hall : ∀ (st : σ) (g : Int) (o : Frame),
        o ∈ (frameLoop proc t st g l).2.2 → o.length = FRAMESIZE_NSAMPLES := by
      clear ho
      induction l with
      | nil => intro st g o ho; simp [frameLoop] at ho
      | cons fr rest ihl =>
        intro st g o ho
        simp only [frameLoop, List.mem_cons] at ho
        rcases ho with h | h
        · subst h; exact frameStep_emit_length proc hproc t st g fr
        · exact ihl _ _ o h
    rw [ringbuf_bytes_used, hall st g o ho, FRAMESIZE_BYTES]
    ring
  · rw [ringbuf_bytes_used, ringbuf_bytes_used, ringbuf_memcpy_into, List.length_append,
      frameLoop_flatten_length proc hproc, FRAMESIZE_BYTES]
    ring

/-- C10 witness: concrete instance with the zero-frame engine on two empty
frames from a fresh gate. -/
theorem C10_gateIndependent_w :
    (frameLoop procZ 0 () VAD_GRACE_PERIOD [[], []]).1 = engineFold procZ () [[], []] ∧
    (∀ o ∈ (frameLoop procZ 0 () VAD_GRACE_PERIOD [[], []]).2.2,
        ringbuf_bytes_used o = FRAMESIZE_BYTES) ∧
    ringbuf_bytes_used (ringbuf_memcpy_into []
        ((frameLoop procZ 0 () VAD_GRACE_PERIOD [[], []]).2.2).flatten)
      = ringbuf_bytes_used [] + ([([]:Frame), []]).length * FRAMESIZE_BYTES :=
  C10_gateIndependent procZ (fun _ _ => List.length_replicate _ _) 0 ()
    VAD_GRACE_PERIOD [[], []] []

/-- C1: for any gate state, with the speech probability above the threshold
exactly at frame 0 and equal to 0 on frames 1..25 (threshold nonnegative),
frames 0 through 20 are emitted as the denoised frames unchanged and
frames 21 through 25 are emitted as FRAMESIZE_NSAMPLES zeros: the boundary
is exactly 20 grace frames after the trigger. -/
theorem C1_gracePeriodBoundary (probs : Nat → ℚ) (den : Nat → Frame) (t : ℚ)
    (ht : 0 ≤ t) (h0 : probs 0 > t)
    (hrest : ∀ i, 1 ≤ i → i ≤ 25 → probs i = 0)
    (g : Int) (fs : List Frame) (hfs : fs.length = 26) :
    (frameLoop (procIdx probs den) t 0 g fs).2.2
      = (List.range 26).map
          (fun i : Nat => if i ≤ 20 then den i
           else List.replicate FRAMESIZE_NSAMPLES 0) := by
  cases fs with
  | nil => simp at hfs
  | cons fr rest =>
    have hrl : rest.length = 25 := by simpa using hfs
    have hpr : procIdx probs den 0 fr = (1, den 0, probs 0) := rfl
    have hemit : (frameStep (procIdx probs den) t 0 g fr).2.2 = den 0 := by
      rw [frameStep_emit, hpr]
      exact if_pos (Or.inl h0)
    have hgr : (frameStep (procIdx probs den) t 0 g fr).2.1
        = VAD_GRACE_PERIOD - 1 := by
      rw [frameStep_grace, hpr]
      exact if_pos h0
    have hfst : (frameStep (procIdx probs den) t 0 g fr).1 = 1 := by
      rw [frameStep_fst, hpr]
    simp only [frameLoop]
    rw [hemit, hgr, hfst]
    have hall := frameLoop_allBelow probs den t rest 1 (VAD_GRACE_PERIOD - 1)
      (fun i hi => by
        rw [hrl] at hi
        rw [hrest (1 + i) (by omega) (by omega)]
        exact not_lt.mpr ht)
    rw [hall, hrl]
    conv_rhs => rw [List.range_succ_eq_map, List.map_cons, List.map_map]
    refine List.cons_eq_cons.mpr ⟨?_, ?_⟩
    · norm_num
    · refine List.map_congr_left ?_
      intro i _
      simp only [Function.comp_apply]
      have h19 : ((i : Int) ≤ VAD_GRACE_PERIOD - 1) ↔ (Nat.succ i ≤ 20) := by
        simp only [VAD_GRACE_PERIOD]
        omega
      have harith : 1 + i = Nat.succ i := by omega
      by_cases hc : Nat.succ i ≤ 20
      · rw [if_pos (h19.mpr hc), if_pos hc, harith]
      · rw [if_neg (fun hx => hc (h19.mp hx)), if_neg hc]

/-- C1 witness: probability 1 at frame 0 then 0, threshold 0, arbitrary
starting counter 7, 26 empty input frames. -/
theorem C1_gracePeriodBoundary_w :
    (frameLoop (procIdx (fun i => if 1 ≤ i then (0:ℚ) else 1) (fun k => [(k:ℚ)]))
        0 0 7 (List.replicate 26 ([]:Frame))).2.2
      = (List.range 26).map
          (fun i : Nat => if i ≤ 20 then [(i:ℚ)]
           else List.replicate FRAMESIZE_NSAMPLES 0) :=
  C1_gracePeriodBoundary (fun i => if 1 ≤ i then (0:ℚ) else 1) (fun k => [(k:ℚ)])
    0 le_rfl (by norm_num) (fun i hi _ => if_pos hi) 7
    (List.replicate 26 []) (by simp)

/-- C9: `instantiate` initializes the grace counter to VAD_GRACE_PERIOD
(20), so on a fresh instance the first 21 processed frames are all emitted
as the denoised frames, even when every probability is 0 and never exceeds
the (nonnegative) threshold. -/
theorem C9_freshInstancePassThrough (probs : Nat → ℚ) (den : Nat → Frame)
    (t : ℚ) (ht : 0 ≤ t) (hp : ∀ i, probs i = 0)
    (fs : List Frame) (hfs : fs.length = 21) :
    instantiateSimpleFilter Nat 0 true
        = some { st := 0, in_buf := [], out_buf := [],
                 remaining_grace_period := VAD_GRACE_PERIOD } ∧
    (frameLoop (procIdx probs den) t 0 VAD_GRACE_PERIOD fs).2.2
      = (List.range 21).map den := by
  constructor
  · rfl
  · have hall := frameLoop_allBelow probs den t fs 0 VAD_GRACE_PERIOD
      (fun i _ => by rw [hp]; exact not_lt.mpr ht)
    rw [hall, hfs]
    refine List.map_congr_left ?_
    intro i hi
    simp only [List.mem_range] at hi
    rw [if_pos (show ((i:Nat) : Int) ≤ VAD_GRACE_PERIOD by
      simp only [VAD_GRACE_PERIOD]; omega)]
    simp

/-- C9 witness: all-zero probabilities, threshold 0, 21 empty frames. -/
theorem C9_freshInstancePassThrough_w :
    instantiateSimpleFilter Nat 0 true
        = some { st := 0, in_buf := [], out_buf := [],
                 remaining_grace_period := VAD_GRACE_PERIOD } ∧
    (frameLoop (procIdx (fun _ => (0:ℚ)) (fun k => [(k:ℚ)])) 0 0 VAD_GRACE_PERIOD
        (List.replicate 21 ([]:Frame))).2.2
      = (List.range 21).map (fun k => [(k:ℚ)]) :=
  C9_freshInstancePassThrough (fun _ => (0:ℚ)) (fun k => [(k:ℚ)]) 0 le_rfl
    (fun _ => rfl) (List.replicate 21 []) (by simp)

/-- The two buffer occupancies across one full call, as plain arithmetic on
lengths (sample counts), independent of the sample values, the control
value and the gate decisions. -/
theorem runFilter_lengths {σ : Type} (proc : σ → Frame → σ × Frame × ℚ)
    (hproc : ∀ st fr, ((proc st fr).2.1).length = FRAMESIZE_NSAMPLES)
    (s : rnnoiseFilter σ) (c : ℚ) (inp : List Sample) (a b n : Nat)
    (ha : s.in_buf.length = a) (hb : s.out_buf.length = b) (hn : inp.length = n) :
    (runFilter proc s c inp).1.in_buf.length = (a + n) % 480 ∧
    (runFilter proc s c inp).1.out_buf.length
      = (if (b + ((a + n) / 480) * 480) / 480 * 480 < n
         then (b + ((a + n) / 480) * 480) % 480
         else b + ((a + n) / 480) * 480 - n) := by
  subst ha hb hn
  constructor
  · have hbuf : (runFilter proc s c inp).1.in_buf
        = (pushAndProcess proc s (c / 100) (inp.map (fun x => x * 32767))).in_buf := rfl
    rw [hbuf, pushAndProcess_in_length, List.length_map]
    simp only [FRAMESIZE_NSAMPLES]
  · have hout1 : (pushAndProcess proc s (c / 100) (inp.map (fun x => x * 32767))).out_buf.length
        = s.out_buf.length + ((s.in_buf.length + inp.length) / 480) * 480 := by
      rw [pushAndProcess_out_length proc hproc, List.length_map]
      simp only [FRAMESIZE_NSAMPLES]
    have hob : (runFilter proc s c inp).1.out_buf
        = (drainOut inp.length
            (pushAndProcess proc s (c / 100) (inp.map (fun x => x * 32767))).out_buf).2 := rfl
    rw [hob]
    simp only [drainOut, ringbuf_memcpy_from, ringbuf_bytes_used, FRAMESIZE_BYTES,
      FRAMESIZE_NSAMPLES]
    split
    · next hlt =>
      rw [hout1] at hlt
      simp only [List.length_drop]
      rw [hout1, if_pos (by omega)]
      omega
    · next hge =>
      rw [hout1] at hge
      simp only [List.length_drop]
      rw [hout1, if_neg (by omega)]
      omega

/-- C5: after pushing the scaled input, exactly
n_frames = floor(bytes_used / FRAME_BYTES) whole frames
(n_frames * FRAME_BYTES bytes) are popped from the input ring buffer, the
partial-frame remainder (bytes_used mod FRAME_BYTES) stays for the next
call, and every frame handed to the frame processor has exactly
FRAMESIZE_NSAMPLES samples — never a partial frame. -/
theorem C5_wholeFramesOnly {σ : Type} (proc : σ → Frame → σ × Frame × ℚ)
    (s : rnnoiseFilter σ) (t : ℚ) (scaled : List Sample)
    (in1 : List Sample) (h1 : in1 = ringbuf_memcpy_into s.in_buf scaled)
    (nf : Nat) (h2 : nf = ringbuf_bytes_used in1 / FRAMESIZE_BYTES) :
    ringbuf_bytes_used (pushAndProcess proc s t scaled).in_buf
        = ringbuf_bytes_used in1 - nf * FRAMESIZE_BYTES ∧
    ringbuf_bytes_used (pushAndProcess proc s t scaled).in_buf
        = ringbuf_bytes_used in1 % FRAMESIZE_BYTES ∧
    (pushAndProcess proc s t scaled).in_buf = in1.drop (nf * FRAMESIZE_NSAMPLES) ∧
    (∀ fr ∈ toFrames (in1.take (nf * FRAMESIZE_NSAMPLES)) nf,
        fr.length = FRAMESIZE_NSAMPLES) := by
  subst h1
  subst h2
  have hdrop : (pushAndProcess proc s t scaled).in_buf
      = (ringbuf_memcpy_into s.in_buf scaled).drop
          ((FRAMESIZE_BYTES
             * (ringbuf_bytes_used (ringbuf_memcpy_into s.in_buf scaled)
                  / FRAMESIZE_BYTES)) / 4) := rfl
  refine ⟨?_, ?_, ?_, ?_⟩
  · rw [hdrop]
    simp only [ringbuf_bytes_used, ringbuf_memcpy_into, List.length_drop,
      List.length_append, FRAMESIZE_BYTES, FRAMESIZE_NSAMPLES]
    omega
  · rw [hdrop]
    simp only [ringbuf_bytes_used, ringbuf_memcpy_into, List.length_drop,
      List.length_append, FRAMESIZE_BYTES, FRAMESIZE_NSAMPLES]
    omega
  · rw [hdrop]
    have hcount : (FRAMESIZE_BYTES
          * (ringbuf_bytes_used (ringbuf_memcpy_into s.in_buf scaled)
               / FRAMESIZE_BYTES)) / 4
        = (ringbuf_bytes_used (ringbuf_memcpy_into s.in_buf scaled)
             / FRAMESIZE_BYTES) * FRAMESIZE_NSAMPLES := by
      simp only [ringbuf_bytes_used, FRAMESIZE_BYTES, FRAMESIZE_NSAMPLES]
      omega
    rw [hcount]
  · refine toFrames_full _ _ ?_
    simp only [List.length_take, ringbuf_memcpy_into, ringbuf_bytes_used,
      List.length_append, FRAMESIZE_BYTES, FRAMESIZE_NSAMPLES]
    omega

/-- C5 witness: one whole frame of zeros pushed into a fresh instance. -/
theorem C5_wholeFramesOnly_w :
    ringbuf_bytes_used
        (pushAndProcess procZ inst0 0 (List.replicate 480 (0:ℚ))).in_buf
      = ringbuf_bytes_used (List.replicate 480 (0:ℚ)) % FRAMESIZE_BYTES :=
  (C5_wholeFramesOnly procZ inst0 0 (List.replicate 480 (0:ℚ))
    (List.replicate 480 (0:ℚ)) rfl 1
    (by norm_num [ringbuf_bytes_used, FRAMESIZE_BYTES, FRAMESIZE_NSAMPLES])).2.1

/-- C4: at the end of every run invocation, with
samples_avail = floor(bytes_used(out_buf) / FRAME_BYTES) * FRAME_SAMPLES
computed on the output buffer after processing: if samples_avail is less
than n_samples, the first n_samples - samples_avail host output samples are
zero and the remaining samples_avail are popped from the output ring
buffer; otherwise exactly n_samples samples are popped and the rest stays
buffered. -/
theorem C4_outputDrain {σ : Type} (proc : σ → Frame → σ × Frame × ℚ)
    (s : rnnoiseFilter σ) (c : ℚ) (input : List Sample)
    (out1 : List Sample)
    (h1 : out1 = (pushAndProcess proc s (c / 100)
        (input.map (fun x => x * 32767))).out_buf)
    (avail : Nat)
    (h2 : avail = ringbuf_bytes_used out1 / FRAMESIZE_BYTES * FRAMESIZE_NSAMPLES) :
    (runFilter proc s c input).2.1.length = input.length ∧
    (avail < input.length →
        (runFilter proc s c input).2.1.take (input.length - avail)
            = List.replicate (input.length - avail) (0:ℚ) ∧
        (runFilter proc s c input).2.1.drop (input.length - avail)
            = (out1.take avail).map (fun x => x / 32767) ∧
        (runFilter proc s c input).1.out_buf = out1.drop avail) ∧
    (input.length ≤ avail →
        (runFilter proc s c input).2.1
            = (out1.take input.length).map (fun x => x / 32767) ∧
        (runFilter proc s c input).1.out_buf = out1.drop input.length) := by
  subst h1
  have hle : avail ≤ (pushAndProcess proc s (c / 100)
      (input.map (fun x => x * 32767))).out_buf.length := by
    rw [h2]
    simp only [ringbuf_bytes_used, FRAMESIZE_BYTES, FRAMESIZE_NSAMPLES]
    omega
  have hcnt : avail * 4 / 4 = avail := by omega
  have hcnt2 : input.length * 4 / 4 = input.length := by omega
  have hout : (runFilter proc s c input).2.1
      = (drainOut input.length (pushAndProcess proc s (c / 100)
          (input.map (fun x => x * 32767))).out_buf).1.map (fun x => x / 32767) := rfl
  have hstate : (runFilter proc s c input).1.out_buf
      = (drainOut input.length (pushAndProcess proc s (c / 100)
          (input.map (fun x => x * 32767))).out_buf).2 := rfl
  rw [hout, hstate]
  simp only [drainOut, ringbuf_memcpy_from, ← h2, hcnt, hcnt2]
  refine ⟨?_, fun hlt => ?_, fun hge => ?_⟩
  · by_cases hlt : avail < input.length
    · simp only [if_pos hlt, List.length_map, List.length_append,
        List.length_replicate, List.length_take]
      omega
    · simp only [if_neg hlt, List.length_map, List.length_take]
      omega
  · simp only [if_pos hlt]
    have hz : (0:ℚ) / 32767 = 0 := by norm_num
    refine ⟨?_, ?_, ?_⟩
    · rw [List.map_append, List.map_replicate, hz]
      exact List.take_left' (by simp)
    · rw [List.map_append, List.map_replicate, hz]
      exact List.drop_left' (by simp)
    · trivial
  · simp only [if_neg (not_lt.mpr hge)]
    exact ⟨trivial, trivial⟩

/-- C4 witness: the non-underrun branch at the empty call on a fresh
instance (zero samples requested, zero available). -/
theorem C4_outputDrain_w :
    (runFilter procZ inst0 50 ([]:List Sample)).2.1
        = (([]:List Sample).take ([]:List Sample).length).map (fun x => x / 32767) ∧
    (runFilter procZ inst0 50 ([]:List Sample)).1.out_buf
        = ([]:List Sample).drop ([]:List Sample).length :=
  (C4_outputDrain procZ inst0 50 [] [] rfl 0 rfl).2.2 (Nat.le_refl _)

/-- C6 (amended): over any sustained sequence of calls from a freshly
instantiated filter, the input ring buffer holds fewer than FRAMESIZE_BYTES
bytes after every call, and the combined input+output backlog stays below
2 * FRAMESIZE_BYTES: the backlog never grows unbounded over arbitrarily
many calls.  (The claim's bound of one frame's byte size plus the largest
single call's byte size does not hold for the output buffer; see the
counterexample.) -/
theorem C6_backlogBounded {σ : Type} (proc : σ → Frame → σ × Frame × ℚ)
    (hproc : ∀ st fr, ((proc st fr).2.1).length = FRAMESIZE_NSAMPLES)
    (e : σ) (inst : rnnoiseFilter σ)
    (hinst : instantiateSimpleFilter σ e true = some inst)
    (calls : List (ℚ × List Sample)) :
    ringbuf_bytes_used (runSeq proc inst calls).in_buf < FRAMESIZE_BYTES ∧
    ringbuf_bytes_used (runSeq proc inst calls).in_buf
        + ringbuf_bytes_used (runSeq proc inst calls).out_buf
      < 2 * FRAMESIZE_BYTES := by
  have h : some (⟨e, [], [], VAD_GRACE_PERIOD⟩ : rnnoiseFilter σ)
      = some inst := hinst
  have hi := Option.some.inj h
  subst hi
  obtain ⟨g1, g2⟩ := runSeq_backlog proc hproc calls
    (⟨e, [], [], VAD_GRACE_PERIOD⟩ : rnnoiseFilter σ)
    (by norm_num [FRAMESIZE_NSAMPLES]) (by norm_num [FRAMESIZE_NSAMPLES])
  simp only [ringbuf_bytes_used, FRAMESIZE_BYTES, FRAMESIZE_NSAMPLES] at g1 g2 ⊢
  omega

/-- C6 witness: the zero-frame engine and eight 120-sample calls from a
fresh instance. -/
theorem C6_backlogBounded_w :
    ringbuf_bytes_used (runSeq procZ inst0 callsC6).in_buf < FRAMESIZE_BYTES ∧
    ringbuf_bytes_used (runSeq procZ inst0 callsC6).in_buf
        + ringbuf_bytes_used (runSeq procZ inst0 callsC6).out_buf
      < 2 * FRAMESIZE_BYTES :=
  C6_backlogBounded procZ (fun _ _ => List.length_replicate _ _) () inst0 rfl callsC6

/-- C6, counterexample: with a sustained sequence of 120-sample (480-byte)
calls from a fresh instance, after the eighth call the output ring buffer
holds 2880 bytes, which is not below one frame's byte size plus the
largest single call's byte size (1920 + 480 = 2400). -/
theorem C6_backlogClaim_cex :
    ringbuf_bytes_used (runSeq procZ inst0 callsC6).out_buf = 2880 ∧
    ¬ (2880 < FRAMESIZE_BYTES + ringbuf_bytes_used (List.replicate 120 (0:Sample))) := by
  have hproc : ∀ st fr, ((procZ st fr).2.1).length = FRAMESIZE_NSAMPLES :=
    fun _ _ => List.length_replicate _ _
  have hlen : (List.replicate 120 (0:ℚ)).length = 120 := List.length_replicate _ _
  set inp : List Sample := List.replicate 120 (0:ℚ) with hinp
  set s1 : rnnoiseFilter Unit := (runFilter procZ inst0 50 inp).1 with hs1
  set s2 : rnnoiseFilter Unit := (runFilter procZ s1 50 inp).1 with hs2
  set s3 : rnnoiseFilter Unit := (runFilter procZ s2 50 inp).1 with hs3
  set s4 : rnnoiseFilter Unit := (runFilter procZ s3 50 inp).1 with hs4
  set s5 : rnnoiseFilter Unit := (runFilter procZ s4 50 inp).1 with hs5
  set s6 : rnnoiseFilter Unit := (runFilter procZ s5 50 inp).1 with hs6
  set s7 : rnnoiseFilter Unit := (runFilter procZ s6 50 inp).1 with hs7
  set s8 : rnnoiseFilter Unit := (runFilter procZ s7 50 inp).1 with hs8
  obtain ⟨i1, o1⟩ := runFilter_lengths procZ hproc inst0 50 inp 0 0 120 rfl rfl hlen
  norm_num [-List.length_eq_zero] at i1 o1
  obtain ⟨i2, o2⟩ := runFilter_lengths procZ hproc s1 50 inp 120 0 120 i1 o1 hlen
  norm_num [-List.length_eq_zero] at i2 o2
  obtain ⟨i3, o3⟩ := runFilter_lengths procZ hproc s2 50 inp 240 0 120 i2 o2 hlen
  norm_num [-List.length_eq_zero] at i3 o3
  obtain ⟨i4, o4⟩ := runFilter_lengths procZ hproc s3 50 inp 360 0 120 i3 o3 hlen
  norm_num [-List.length_eq_zero] at i4 o4
  obtain ⟨i5, o5⟩ := runFilter_lengths procZ hproc s4 50 inp 0 360 120 i4 o4 hlen
  norm_num [-List.length_eq_zero] at i5 o5
  obtain ⟨i6, o6⟩ := runFilter_lengths procZ hproc s5 50 inp 120 360 120 i5 o5 hlen
  norm_num [-List.length_eq_zero] at i6 o6
  obtain ⟨i7, o7⟩ := runFilter_lengths procZ hproc s6 50 inp 240 360 120 i6 o6 hlen
  norm_num [-List.length_eq_zero] at i7 o7
  obtain ⟨i8, o8⟩ := runFilter_lengths procZ hproc s7 50 inp 360 360 120 i7 o7 hlen
  norm_num [-List.length_eq_zero] at i8 o8
  constructor
  · have h720 : (runSeq procZ inst0 callsC6).out_buf.length = 720 := o8
    rw [ringbuf_bytes_used, h720]
  · rw [FRAMESIZE_BYTES, FRAMESIZE_NSAMPLES, ringbuf_bytes_used, List.length_replicate]
    norm_num
